import Mathlib

/-!
Verification development for the core library of `grpcurl` (file `grpcurl.go`).

Go strings are modelled as byte lists (`GoStr := List Nat`, each entry a byte
value).  Go errors are modelled by the inductive `GoError`; a nil Go error is
`Option.none` where the distinction matters.  Character-level operations
(`strings.TrimSpace`, `strings.ToLower`) are modelled on the ASCII range,
which is the range exercised by metadata header names and base64 text.
-/

/-- A Go string, as its byte sequence. -/
abbrev GoStr := List Nat

/-- Byte list of an ASCII Lean string literal (used to write concrete inputs). -/
def bytes (s : String) : GoStr := s.data.map Char.toNat

/-- Whitespace bytes trimmed by `strings.TrimSpace` (ASCII range of `unicode.IsSpace`). -/
def isWs (c : Nat) : Bool :=
  decide (c = 9 ∨ c = 10 ∨ c = 11 ∨ c = 12 ∨ c = 13 ∨ c = 32)

/-- Drop leading whitespace, as the left half of `strings.TrimSpace`. -/
def trimLeft : GoStr → GoStr
  | [] => []
  | c :: rest => if isWs c then trimLeft rest else c :: rest

/-- Model of `strings.TrimSpace` on byte strings: drop leading whitespace,
then drop trailing whitespace (via a reversal). -/
def trimSpace (s : GoStr) : GoStr := (trimLeft (trimLeft s).reverse).reverse

/-- Model of `strings.ToLower` on the ASCII range: bytes 65..90 map to 97..122. -/
def goToLower (s : GoStr) : GoStr :=
  s.map (fun c => if 65 ≤ c ∧ c ≤ 90 then c + 32 else c)

/-- Split a byte string at the first occurrence of delimiter `d`; `none` when
`d` does not occur.  Models `strings.SplitN(s, d, 2)`. -/
def splitAtFirst (d : Nat) : GoStr → Option (GoStr × GoStr)
  | [] => none
  | c :: rest =>
    if c = d then some ([], rest)
    else (splitAtFirst d rest).map (fun p => (c :: p.1, p.2))

/-- Index of the last occurrence of byte `d` in `s`; models `strings.LastIndex`
for a one-byte separator. -/
def lastIndexByte (d : Nat) : GoStr → Option Nat
  | [] => none
  | c :: rest =>
    match lastIndexByte d rest with
    | some i => some (i + 1)
    | none => if c = d then some 0 else none

/-- Model of `strings.HasSuffix`. -/
def hasSuffixB (suffix s : GoStr) : Bool := decide (suffix <:+ s)

/- ## Base64 (package encoding/base64), as used by the metadata codec -/

/-- A base64 alphabet is determined by its 62nd and 63rd characters; the first
62 are A-Z, a-z, 0-9 in both alphabets used by the source. -/
structure B64Alphabet where
  c62 : Nat
  c63 : Nat
deriving DecidableEq

/-- The standard alphabet (`base64.StdEncoding`, `base64.RawStdEncoding`). -/
def stdAlpha : B64Alphabet := ⟨43, 47⟩

/-- The URL-safe alphabet (`base64.URLEncoding`, `base64.RawURLEncoding`). -/
def urlAlpha : B64Alphabet := ⟨45, 95⟩

/-- Character (byte) for a 6-bit value in the given alphabet. -/
def b64char (a : B64Alphabet) (i : Nat) : Nat :=
  if i < 26 then 65 + i
  else if i < 52 then 97 + (i - 26)
  else if i < 62 then 48 + (i - 52)
  else if i = 62 then a.c62
  else a.c63

/-- Six-bit value of a character in the given alphabet; `none` when the byte is
not in the alphabet (in particular for the pad byte 61). -/
def b64index (a : B64Alphabet) (c : Nat) : Option Nat :=
  if 65 ≤ c ∧ c ≤ 90 then some (c - 65)
  else if 97 ≤ c ∧ c ≤ 122 then some (26 + (c - 97))
  else if 48 ≤ c ∧ c ≤ 57 then some (52 + (c - 48))
  else if c = a.c62 then some 62
  else if c = a.c63 then some 63
  else none

/-- Base64 encoding of a byte list: three bytes per four characters, the final
group padded with `=` (byte 61) when `pad` is set.  Models `Encoding.EncodeToString`. -/
def b64encode (a : B64Alphabet) (pad : Bool) : List Nat → List Nat
  | [] => []
  | [x] =>
    [b64char a (x / 4), b64char a (x % 4 * 16)] ++ (if pad then [61, 61] else [])
  | [x, y] =>
    [b64char a (x / 4), b64char a (x % 4 * 16 + y / 16), b64char a (y % 16 * 4)]
      ++ (if pad then [61] else [])
  | x :: y :: z :: rest =>
    b64char a (x / 4) :: b64char a (x % 4 * 16 + y / 16) ::
      b64char a (y % 16 * 4 + z / 64) :: b64char a (z % 64) :: b64encode a pad rest

/-- Decoding of padded base64 in four-character quanta.  Padding is accepted
only in the final quantum (`xx==` or `xxx=`); a length not a multiple of four
is rejected; non-zero trailing bits are ignored, as Go's decoder does. -/
def b64decodePadQ (a : B64Alphabet) : List Nat → Option (List Nat)
  | [] => some []
  | c1 :: c2 :: c3 :: c4 :: rest =>
    match b64index a c1, b64index a c2 with
    | some i1, some i2 =>
      if c3 = 61 then
        if c4 = 61 ∧ rest = [] then some [i1 * 4 + i2 / 16] else none
      else
        match b64index a c3 with
        | some i3 =>
          if c4 = 61 then
            if rest = [] then some [i1 * 4 + i2 / 16, i2 % 16 * 16 + i3 / 4] else none
          else
            match b64index a c4 with
            | some i4 =>
              match b64decodePadQ a rest with
              | some bs =>
                some ((i1 * 4 + i2 / 16) :: (i2 % 16 * 16 + i3 / 4) :: (i3 % 4 * 64 + i4) :: bs)
              | none => none
            | none => none
        | none => none
    | _, _ => none
  | _ => none

/-- Decoding of unpadded (raw) base64: full quanta plus an optional final
quantum of two or three characters; `=` is not in the alphabet and is rejected. -/
def b64decodeRawQ (a : B64Alphabet) : List Nat → Option (List Nat)
  | [] => some []
  | [c1, c2] =>
    match b64index a c1, b64index a c2 with
    | some i1, some i2 => some [i1 * 4 + i2 / 16]
    | _, _ => none
  | [c1, c2, c3] =>
    match b64index a c1, b64index a c2, b64index a c3 with
    | some i1, some i2, some i3 => some [i1 * 4 + i2 / 16, i2 % 16 * 16 + i3 / 4]
    | _, _, _ => none
  | c1 :: c2 :: c3 :: c4 :: rest =>
    match b64index a c1, b64index a c2, b64index a c3, b64index a c4 with
    | some i1, some i2, some i3, some i4 =>
      match b64decodeRawQ a rest with
      | some bs =>
        some ((i1 * 4 + i2 / 16) :: (i2 % 16 * 16 + i3 / 4) :: (i3 % 4 * 64 + i4) :: bs)
      | none => none
    | _, _, _, _ => none
  | _ => none

/-- Go's base64 decoder skips carriage returns and newlines in its input. -/
def stripNewlines (s : GoStr) : GoStr := s.filter (fun c => c != 10 && c != 13)

/-- Model of `Encoding.DecodeString` for the four encodings used by the source. -/
def b64decode (a : B64Alphabet) (pad : Bool) (s : GoStr) : Option GoStr :=
  if pad then b64decodePadQ a (stripNewlines s) else b64decodeRawQ a (stripNewlines s)

/-- Model of function `decode` (grpcurl.go:752): try `base64.StdEncoding`,
`base64.URLEncoding`, `base64.RawStdEncoding`, `base64.RawURLEncoding` in that
order and return the first successful decode; `none` models the error return
(the caller only tests the error against nil). -/
def decodeLenient (val : GoStr) : Option GoStr :=
  match b64decode stdAlpha true val with
  | some v => some v
  | none =>
    match b64decode urlAlpha true val with
    | some v => some v
    | none =>
      match b64decode stdAlpha false val with
      | some v => some v
      | none => b64decode urlAlpha false val

/- ## Metadata multimap -/

/-- Model of `metadata.MD`: per-key value lists, keyed by name.  The Go map is
unordered; the list order here is insertion order of first key occurrence,
which is unobservable through the rendered form (keys are sorted there). -/
abbrev MD := List (GoStr × List GoStr)

/-- Append a value under a key, as `md[name] = append(md[name], val)` does. -/
def mdAppend (md : MD) (k : GoStr) (v : GoStr) : MD :=
  match md with
  | [] => [(k, [v])]
  | (k0, vs) :: rest => if k0 = k then (k0, vs ++ [v]) :: rest else (k0, vs) :: mdAppend rest k v

/-- Values stored under a key (empty when absent), as `md[k]`. -/
def mdLookup (md : MD) (k : GoStr) : List GoStr :=
  match md with
  | [] => []
  | (k0, vs) :: rest => if k0 = k then vs else mdLookup rest k

/-- Model of `MetadataFromHeaders` (grpcurl.go:729): skip empty strings, split
each remaining string at the first colon (missing colon gives an empty value),
lower-case and trim the name, trim the value, base64-decode values of `-bin`
names leniently, and append under the resulting name. -/
def metadataFromHeaders (headers : List GoStr) : MD :=
  headers.foldl
    (fun md part =>
      if part = [] then md
      else
        let pieces : GoStr × GoStr :=
          match splitAtFirst 58 part with
          | some p => p
          | none => (part, [])
        let headerName := goToLower (trimSpace pieces.1)
        let val0 := trimSpace pieces.2
        let val :=
          if hasSuffixB (bytes "-bin") headerName then
            match decodeLenient val0 with
            | some v => v
            | none => val0
          else val0
        mdAppend md headerName val)
    []

/-- Byte-wise lexicographic order of Go strings, as used by `sort.Strings`. -/
def goStrLe : GoStr → GoStr → Bool
  | [], _ => true
  | _ :: _, [] => false
  | a :: as, b :: bs => if a < b then true else if b < a then false else goStrLe as bs

/-- Model of `sort.Strings`: ascending byte-wise sort. -/
def sortStrings (l : List GoStr) : List GoStr := l.mergeSort goStrLe

/-- Interleave the byte 10 between lines, as the buffer writes in `MetadataToString`. -/
def joinLines : List GoStr → GoStr
  | [] => []
  | [l] => l
  | l :: rest => l ++ 10 :: joinLines rest

/-- Model of `MetadataToString` (grpcurl.go:783): `(empty)` for empty metadata,
otherwise one `name: value` line per value, keys sorted ascending, `-bin`
values re-encoded with standard base64. -/
def metadataToString (md : MD) : GoStr :=
  if md = [] then bytes "(empty)"
  else
    joinLines
      ((sortStrings (md.map Prod.fst)).flatMap
        (fun k =>
          (mdLookup md k).map
            (fun v =>
              k ++ bytes ": " ++ (if hasSuffixB (bytes "-bin") k then b64encode stdAlpha true v else v))))

/- ## Method name parsing -/

/-- Model of `parseSymbol` (grpcurl.go:770): split at the last slash, else at
the last dot, else return two empty strings. -/
def parseSymbol (svcAndMethod : GoStr) : GoStr × GoStr :=
  match lastIndexByte 47 svcAndMethod with
  | some pos => (svcAndMethod.take pos, svcAndMethod.drop (pos + 1))
  | none =>
    match lastIndexByte 46 svcAndMethod with
    | some pos => (svcAndMethod.take pos, svcAndMethod.drop (pos + 1))
    | none => ([], [])

/-- Split at the last occurrence of delimiter `d` (none when `d` is absent),
written independently of `parseSymbol` for the specification comparison. -/
def splitAtLast (d : Nat) : GoStr → Option (GoStr × GoStr)
  | [] => none
  | c :: rest =>
    match splitAtLast d rest with
    | some (l, r) => some (c :: l, r)
    | none => if c = d then some ([], rest) else none

/-- The method-name splitting rule as the specification states it: split at the
last slash if one is present, otherwise at the last dot, otherwise fail. -/
def parseSymbolSpec (s : GoStr) : GoStr × GoStr :=
  match splitAtLast 47 s with
  | some p => p
  | none =>
    match splitAtLast 46 s with
    | some p => p
    | none => ([], [])

/- ## Errors and gRPC status -/

/-- Cardinality tag distinguishing the two too-many-request-messages errors. -/
inductive RpcKind where
  | unaryKind
  | serverStreamKind
deriving DecidableEq

/-- Model of the Go error values the core produces or consumes.  A nil error is
`Option.none` of this type.  `statusErr` is an error that converts to a gRPC
status (it implements `GRPCStatus()`); `plain` is any other foreign error.
The `err*` constructors model the `fmt.Errorf` values built by the source,
carrying the data interpolated into the message. -/
inductive GoError where
  | eofe
  | statusErr (code : Nat) (msg : GoStr)
  | plain (msg : GoStr)
  | reflectionNotSupported
  | notFound (kind name : GoStr)
  | errRequestData (e : GoError)
  | errTooManyRequests (fq : GoStr) (k : RpcKind)
  | errGrpcCallFailed (fq : GoStr) (e : GoError)
  | errMalformedMethod (name : GoStr)
  | errServiceNotExposed (svc : GoStr)
  | errFindSymbolFailed (svc : GoStr) (e : GoError)
  | errMethodNotFound (svc mth : GoStr)
deriving DecidableEq

/-- gRPC code `OK`. -/
def codeOK : Nat := 0

/-- gRPC code `Unimplemented`. -/
def codeUnimplemented : Nat := 12

/-- Result of `status.FromError`: either a status (the `ok` case, including
the OK status for a nil error) or the original non-convertible error. -/
inductive Classified where
  | status (code : Nat)
  | failure (e : GoError)
deriving DecidableEq

/-- Model of `status.FromError`: a nil error converts to the OK status; an
error implementing `GRPCStatus()` converts to its status; everything else
(including `io.EOF` and all `fmt.Errorf` values) does not convert. -/
def classifyErr : Option GoError → Classified
  | none => .status codeOK
  | some (.statusErr c _) => .status c
  | some e => .failure e

/-- The status code an error (nil included) converts to, if any. -/
def statusFromError (e : Option GoError) : Option Nat :=
  match classifyErr e with
  | .status c => some c
  | .failure _ => none

/-- Status code carried by a non-nil error, when it converts to a status. -/
def statusCodeOfErr (e : GoError) : Option Nat := statusFromError (some e)

/-- Model of `reflectionSupport` (grpcurl.go:262): a non-nil error whose status
code is Unimplemented becomes `ErrReflectionNotSupported`; any other non-nil
error passes through (nil is handled by the `Except` structure at call sites). -/
def reflectionSupport (e : GoError) : GoError :=
  match statusCodeOfErr e with
  | some c => if c = codeUnimplemented then .reflectionNotSupported else e
  | none => e

/-- Predicate for the `notFound` errors produced by `notFound(kind, name)`;
`isNotFoundError` in the source also recognizes the reflection library's
element-not-found errors, which this model folds into the same constructor. -/
def isNotFoundErr : GoError → Bool
  | .notFound _ _ => true
  | _ => false

/- ## Descriptors and descriptor sources -/

/-- Descriptors as far as the claims need them: a service descriptor carries
its method names; other symbol kinds are collapsed into non-service tags. -/
inductive Descriptor where
  | service (name : GoStr) (methods : List GoStr)
  | message (name : GoStr)
  | other (name : GoStr)
deriving DecidableEq

/-- An extension field descriptor, abstract. -/
abbrev FieldDesc := Nat

/-- Behavioural model of the `DescriptorSource` interface: the result of each
of its three operations. -/
structure DescSource where
  listServices : Except GoError (List GoStr)
  findSymbol : GoStr → Except GoError Descriptor
  allExtensionsForType : GoStr → Except GoError (List FieldDesc)

/-- A file descriptor, as far as `serverSource.FindSymbol` needs it. -/
structure FileDesc where
  findSymbol : GoStr → Option Descriptor

/-- Behavioural model of the reflection client (`grpcreflect.Client`): the
result of each remote operation the `serverSource` adapter performs. -/
structure ReflClient where
  listServices : Except GoError (List GoStr)
  fileContainingSymbol : GoStr → Except GoError FileDesc
  allExtensionNumbersForType : GoStr → Except GoError (List Nat)
  resolveExtension : GoStr → Nat → Except GoError FieldDesc

/-- Resolution loop of `serverSource.AllExtensionsForType` (grpcurl.go:252):
resolve each extension number in order, passing any error through
`reflectionSupport`. -/
def resolveAllExts (c : ReflClient) (typeName : GoStr) : List Nat → Except GoError (List FieldDesc)
  | [] => .ok []
  | n :: rest =>
    match c.resolveExtension typeName n with
    | .error e => .error (reflectionSupport e)
    | .ok x =>
      match resolveAllExts c typeName rest with
      | .error e => .error e
      | .ok xs => .ok (x :: xs)

/-- Model of `serverSource` (grpcurl.go:225): the reflection-backed descriptor
source, with every underlying client error routed through `reflectionSupport`. -/
def serverSource (c : ReflClient) : DescSource where
  listServices :=
    match c.listServices with
    | .ok svcs => .ok svcs
    | .error e => .error (reflectionSupport e)
  findSymbol := fun n =>
    match c.fileContainingSymbol n with
    | .error e => .error (reflectionSupport e)
    | .ok f =>
      match f.findSymbol n with
      | some d => .ok d
      | none => .error (.notFound (bytes "Symbol") n)
  allExtensionsForType := fun t =>
    match c.allExtensionNumbersForType t with
    | .error e => .error (reflectionSupport e)
    | .ok nums => resolveAllExts c t nums

/-- Model of `ListMethods` (grpcurl.go:354): find the symbol, require a service
descriptor, and return the method names sorted ascending. -/
def listMethods (source : DescSource) (serviceName : GoStr) : Except GoError (List GoStr) :=
  match source.findSymbol serviceName with
  | .error e => .error e
  | .ok (.service _ ms) => .ok (sortStrings ms)
  | .ok _ => .error (.notFound (bytes "Service") serviceName)

/- ## GetDescriptorText -/

/-- Model of `GetDescriptorText` (grpcurl.go:824), as a function of the
printer's result.  The source indexes `txt[len(txt)-1]` unconditionally, so an
empty printed string is an out-of-range panic, modelled as `none`. -/
def getDescriptorText (printed : Except GoError GoStr) : Option (Except GoError GoStr) :=
  match printed with
  | .error e => some (.error e)
  | .ok txt =>
    match txt.getLast? with
    | none => none
    | some c => some (.ok (if c = 10 then txt.dropLast else txt))

/- ## Invocation engine -/

/-- A request or response message, abstract.  The empty message produced by the
message factory is `0`; `Reset()` restores it. -/
abbrev Msg := Nat

/-- The empty message a fresh factory message holds. -/
def emptyMsg : Msg := 0

/-- Handler events, in the order the engine may fire them. -/
inductive Event where
  | resolveMethod (fq : GoStr)
  | sendHeaders (md : MD)
  | receiveHeaders (md : MD)
  | receiveResponse (m : Option Msg)
  | receiveTrailers (code : Nat) (md : MD)
deriving DecidableEq

/-- Result of one call to the request supplier: it populated the message, hit
`io.EOF`, or failed with some other error. -/
inductive SupplierStep where
  | ok (m : Msg)
  | eof
  | fail (e : GoError)
deriving DecidableEq

/-- How an invocation function finishes: a Go return value (nil or an error),
or a nil-pointer panic from calling a method on a nil stream handle. -/
inductive Outcome where
  | ret (res : Option GoError)
  | nilPanic
deriving DecidableEq

/-- Observable run of one invocation: handler events fired, the single request
message passed to the stub (for the one-request cardinalities), and the way
the function finished. -/
structure RunResult where
  events : List Event
  sent : Option Msg
  outcome : Outcome
deriving DecidableEq

/-- Environment of `invokeUnary`: results of the supplier calls and of the RPC. -/
structure UnaryEnv where
  sup1 : SupplierStep
  sup2 : SupplierStep
  rpcResp : Option Msg
  rpcErr : Option GoError
  respHeaders : MD
  respTrailers : MD
  fq : GoStr

/-- The post-dispatch half of `invokeUnary` (grpcurl.go:528): classify the RPC
error; a status (including OK) yields headers, an OK-only response, and
trailers, with a nil return; any other error yields the wrapped failure. -/
def unaryCall (env : UnaryEnv) (m : Msg) : RunResult :=
  match classifyErr env.rpcErr with
  | .failure e =>
    { events := [], sent := some m,
      outcome := .ret (some (.errGrpcCallFailed env.fq e)) }
  | .status code =>
    { events :=
        [.receiveHeaders env.respHeaders]
          ++ (if code = codeOK then [.receiveResponse env.rpcResp] else [])
          ++ [.receiveTrailers code env.respTrailers],
      sent := some m, outcome := .ret none }

/-- Model of `invokeUnary` (grpcurl.go:510). -/
def invokeUnary (env : UnaryEnv) : RunResult :=
  match env.sup1 with
  | .fail e => { events := [], sent := none, outcome := .ret (some (.errRequestData e)) }
  | .eof => unaryCall env emptyMsg
  | .ok m =>
    match env.sup2 with
    | .ok _ =>
      { events := [], sent := none,
        outcome := .ret (some (.errTooManyRequests env.fq .unaryKind)) }
    | .fail e => { events := [], sent := none, outcome := .ret (some (.errRequestData e)) }
    | .eof => unaryCall env m

/-- Environment of `invokeServerStream`: supplier results, stream creation
result (error and whether the returned handle is nil), the header call, the
received messages with the error that ends the receive loop, and the trailer. -/
structure ServerStreamEnv where
  sup1 : SupplierStep
  sup2 : SupplierStep
  streamErr : Option GoError
  streamNil : Bool
  header : Except GoError MD
  msgs : List Msg
  recvFinal : GoError
  trailer : MD
  fq : GoStr

/-- The error that ends the server-stream receive loop: the stream-creation
error if there was one (the loop never runs), otherwise the terminal receive
error with `io.EOF` normalized to nil. -/
def serverClassifiedErr (env : ServerStreamEnv) : Option GoError :=
  match env.streamErr with
  | some e => some e
  | none => if env.recvFinal = .eofe then none else some env.recvFinal

/-- The post-dispatch half of `invokeServerStream` (grpcurl.go:617): the header
call comes first (a nil handle panics there), then best-effort headers, the
receive loop, and classification. -/
def serverStreamCall (env : ServerStreamEnv) (m : Msg) : RunResult :=
  if env.streamNil then { events := [], sent := some m, outcome := .nilPanic }
  else
    let headerEvts : List Event :=
      match env.header with
      | .ok h => [.receiveHeaders h]
      | .error _ => []
    let respEvts : List Event :=
      match env.streamErr with
      | some _ => []
      | none => env.msgs.map (fun mg => .receiveResponse (some mg))
    match classifyErr (serverClassifiedErr env) with
    | .failure e =>
      { events := headerEvts ++ respEvts, sent := some m,
        outcome := .ret (some (.errGrpcCallFailed env.fq e)) }
    | .status code =>
      { events := headerEvts ++ respEvts ++ [.receiveTrailers code env.trailer],
        sent := some m, outcome := .ret none }

/-- Model of `invokeServerStream` (grpcurl.go:600): same pre-send discipline as
unary, then the streaming call. -/
def invokeServerStream (env : ServerStreamEnv) : RunResult :=
  match env.sup1 with
  | .fail e => { events := [], sent := none, outcome := .ret (some (.errRequestData e)) }
  | .eof => serverStreamCall env emptyMsg
  | .ok m =>
    match env.sup2 with
    | .ok _ =>
      { events := [], sent := none,
        outcome := .ret (some (.errTooManyRequests env.fq .serverStreamKind)) }
    | .fail e => { events := [], sent := none, outcome := .ret (some (.errRequestData e)) }
    | .eof => serverStreamCall env m

/-- Environment of `invokeClientStream`: stream creation result, the supplier
trace (calls beyond the list return `io.EOF`), per-send results, the
`CloseAndReceive` result, the header call, and the trailer. -/
structure ClientStreamEnv where
  streamErr : Option GoError
  streamNil : Bool
  sup : List SupplierStep
  sendRes : Nat → Option GoError
  carResp : Option Msg
  carErr : Option GoError
  header : Except GoError MD
  trailer : MD
  fq : GoStr

/-- How the client-stream upload loop (grpcurl.go:558) ends: by switching to
`CloseAndReceive` (supplier EOF or send-side EOF), by the early return on a
supplier failure, or with a non-EOF send error left in `err`. -/
inductive ClientLoopExit where
  | closeRecv
  | supFail (e : GoError)
  | sendErr (e : GoError)
deriving DecidableEq

/-- The upload loop of `invokeClientStream`, one iteration per supplier call. -/
def clientLoop (env : ClientStreamEnv) : List SupplierStep → Nat → ClientLoopExit
  | [], _ => .closeRecv
  | step :: rest, i =>
    match step with
    | .eof => .closeRecv
    | .fail e => .supFail e
    | .ok _ =>
      match env.sendRes i with
      | none => clientLoop env rest (i + 1)
      | some .eofe => .closeRecv
      | some e => .sendErr e

/-- Everything of `invokeClientStream` up to status classification: the
response and error values the classification receives, or (`Except.error`) the
early return on a supplier failure. -/
def clientPhase1 (env : ClientStreamEnv) : Except GoError (Option Msg × Option GoError) :=
  match env.streamErr with
  | some e => .ok (none, some e)
  | none =>
    match clientLoop env env.sup 0 with
    | .supFail e => .error e
    | .sendErr e => .ok (none, some e)
    | .closeRecv => .ok (env.carResp, env.carErr)

/-- The classification tail of `invokeClientStream` (grpcurl.go:580): status
errors flow to events (headers best-effort, response only on OK, trailers);
others return the wrapped failure.  The header call sits after classification
here, so a nil stream handle panics only on the status path. -/
def clientFinish (env : ClientStreamEnv) (resp : Option Msg) (cerr : Option GoError) : RunResult :=
  match classifyErr cerr with
  | .failure e =>
    { events := [], sent := none,
      outcome := .ret (some (.errGrpcCallFailed env.fq e)) }
  | .status code =>
    if env.streamNil then { events := [], sent := none, outcome := .nilPanic }
    else
      let headerEvts : List Event :=
        match env.header with
        | .ok h => [.receiveHeaders h]
        | .error _ => []
      { events :=
          headerEvts ++ (if code = codeOK then [.receiveResponse resp] else [])
            ++ [.receiveTrailers code env.trailer],
        sent := none, outcome := .ret none }

/-- Model of `invokeClientStream` (grpcurl.go:550). -/
def invokeClientStream (env : ClientStreamEnv) : RunResult :=
  match clientPhase1 env with
  | .error e => { events := [], sent := none, outcome := .ret (some (.errRequestData e)) }
  | .ok (resp, cerr) => clientFinish env resp cerr

/-- Environment of `invokeBidi`: stream creation result, the send-side traces
(supplier, per-send results, `CloseSend`), the receive-side traces (header,
messages, terminal receive error), the trailer, and one scheduling bit:
whether the send goroutine's `sendErr.Store` happened before the main
goroutine's `sendErr.Load`.  The code orders these two accesses only by the
deferred `wg.Wait`, which runs after the load, so both values are reachable. -/
structure BidiEnv where
  streamErr : Option GoError
  streamNil : Bool
  sup : List SupplierStep
  sendRes : Nat → Option GoError
  closeSendRes : Option GoError
  header : Except GoError MD
  msgs : List Msg
  recvFinal : GoError
  trailer : MD
  fq : GoStr
  storeBeforeLoad : Bool

/-- The send goroutine of `invokeBidi` (grpcurl.go:662): supplier EOF switches
to `CloseSend`, a supplier failure is wrapped, a send error (EOF included)
ends the loop; the resulting non-nil error, if any, is stored in the cell. -/
def bidiSendLoop (env : BidiEnv) : List SupplierStep → Nat → Option GoError
  | [], _ => env.closeSendRes
  | step :: rest, i =>
    match step with
    | .eof => env.closeSendRes
    | .fail e => some (.errRequestData e)
    | .ok _ =>
      match env.sendRes i with
      | none => bidiSendLoop env rest (i + 1)
      | some e => some e

/-- The error the send goroutine stores (none when it finishes cleanly). -/
def sendTaskErr (env : BidiEnv) : Option GoError := bidiSendLoop env env.sup 0

/-- The value the main goroutine's `sendErr.Load()` observes: the stored error
only when the goroutine was spawned and its store won the race. -/
def bidiObservedSend (env : BidiEnv) : Option GoError :=
  if env.streamErr.isNone && env.storeBeforeLoad then sendTaskErr env else none

/-- The error out of the bidi receive loop: the stream-creation error if any
(the loop never runs), else the terminal receive error, `io.EOF` made nil. -/
def bidiRecvErr (env : BidiEnv) : Option GoError :=
  match env.streamErr with
  | some e => some e
  | none => if env.recvFinal = .eofe then none else some env.recvFinal

/-- The error `invokeBidi` classifies (grpcurl.go:707): an observed non-EOF
send error replaces the receive-loop error, whatever the latter was. -/
def bidiClassifiedErr (env : BidiEnv) : Option GoError :=
  match bidiObservedSend env with
  | some e => if e = .eofe then bidiRecvErr env else some e
  | none => bidiRecvErr env

/-- Model of `invokeBidi` (grpcurl.go:649): the header call comes directly
after the spawn (a nil handle panics there), then best-effort headers, the
receive loop, the cell read, and classification. -/
def invokeBidi (env : BidiEnv) : RunResult :=
  if env.streamNil then { events := [], sent := none, outcome := .nilPanic }
  else
    let headerEvts : List Event :=
      match env.header with
      | .ok h => [.receiveHeaders h]
      | .error _ => []
    let respEvts : List Event :=
      match env.streamErr with
      | some _ => []
      | none => env.msgs.map (fun m => .receiveResponse (some m))
    match classifyErr (bidiClassifiedErr env) with
    | .failure e =>
      { events := headerEvts ++ respEvts, sent := none,
        outcome := .ret (some (.errGrpcCallFailed env.fq e)) }
    | .status code =>
      { events := headerEvts ++ respEvts ++ [.receiveTrailers code env.trailer],
        sent := none, outcome := .ret none }

/-- Control-flow checkpoints of the main goroutine of `invokeBidi`, in program
order.  `join` is the deferred `wg.Wait()`, which runs between the function's
result being decided and the function returning. -/
inductive BidiAction where
  | dispatch
  | headerCall
  | loadCell
  | classify
  | fireTrailers
  | join
  | ret
deriving DecidableEq

/-- Program order of the main goroutine's checkpoints in `invokeBidi` for a
run that finishes without panicking: the cell load and the classification come
before the deferred join, which comes before the return. -/
def bidiTrace (env : BidiEnv) : List BidiAction :=
  if env.streamNil then [.dispatch, .headerCall]
  else
    [.dispatch, .headerCall, .loadCell, .classify]
      ++ (match classifyErr (bidiClassifiedErr env) with
          | .failure _ => []
          | .status _ => [.fireTrailers])
      ++ [.join, .ret]

/- ## InvokeRPC: method resolution prefix -/

/-- Environment of the resolution prefix of `InvokeRPC` (grpcurl.go:455-477):
the descriptor source and the method name argument. -/
structure ResolveEnv where
  source : DescSource
  methodName : GoStr

/-- Model of `InvokeRPC` from the method-name check through the
`OnResolveMethod` event (grpcurl.go:455-477): a malformed name fails before
any handler event; then the service symbol is resolved and must be a service
containing the named method, after which `OnResolveMethod` fires. -/
def invokeRPCResolve (env : ResolveEnv) : List Event × Option GoError :=
  let sm := parseSymbol env.methodName
  if sm.1 = [] ∨ sm.2 = [] then ([], some (.errMalformedMethod env.methodName))
  else
    match env.source.findSymbol sm.1 with
    | .error e =>
      ([], some (if isNotFoundErr e then .errServiceNotExposed sm.1 else .errFindSymbolFailed sm.1 e))
    | .ok (.service svcName methods) =>
      if sm.2 ∈ methods then ([.resolveMethod (svcName ++ bytes "." ++ sm.2)], none)
      else ([], some (.errMethodNotFound sm.1 sm.2))
    | .ok _ => ([], some (.errServiceNotExposed sm.1))

/- ## Specification-side definitions and concrete inputs -/

/-- First successful result of a list of decoders, written as the claim words
the lenient base64 cascade. -/
def firstSome (fs : List (GoStr → Option GoStr)) (v : GoStr) : Option GoStr :=
  match fs with
  | [] => none
  | f :: rest =>
    match f v with
    | some r => some r
    | none => firstSome rest v

/-- `MetadataFromHeaders` as the specification words it: skip empty strings;
split at the first colon (missing colon gives an empty value); lowercase and
trim the name; trim the value; for `-bin` names try the standard, URL-safe,
raw-standard and raw-URL base64 decoders in that order, replacing the value
with the first successful decode and keeping it verbatim when all four fail;
append under the canonical lowercased name. -/
def metadataFromHeadersSpec (headers : List GoStr) : MD :=
  headers.foldl
    (fun md part =>
      if part = [] then md
      else
        let pieces : GoStr × GoStr :=
          match splitAtFirst 58 part with
          | some p => p
          | none => (part, [])
        let headerName := trimSpace (goToLower pieces.1)
        let val0 := trimSpace pieces.2
        let val :=
          if hasSuffixB (bytes "-bin") headerName then
            match firstSome
                [b64decode stdAlpha true, b64decode urlAlpha true,
                 b64decode stdAlpha false, b64decode urlAlpha false] val0 with
            | some v => v
            | none => val0
          else val0
        mdAppend md headerName val)
    []

/-- A descriptor source with no content, for concrete resolution inputs. -/
def emptySource : DescSource where
  listServices := .ok []
  findSymbol := fun n => .error (.notFound (bytes "Symbol") n)
  allExtensionsForType := fun _ => .ok []

/-- Bidi environment on which the engine misses the send task's error: the
supplier fails (a non-EOF error is stored), the server ends the stream cleanly
(nil receive error), and the store loses the race with the engine's load. -/
def bidiRaceEnv : BidiEnv where
  streamErr := none
  streamNil := false
  sup := [SupplierStep.fail (.plain (bytes "boom"))]
  sendRes := fun _ => none
  closeSendRes := none
  header := .error .eofe
  msgs := []
  recvFinal := .eofe
  trailer := []
  fq := bytes "svc.M"
  storeBeforeLoad := false

/-- The same bidi environment with the store winning the race. -/
def bidiRaceEnvSync : BidiEnv := { bidiRaceEnv with storeBeforeLoad := true }

/-- A unary environment whose RPC fails with a status error. -/
def unaryEnvA : UnaryEnv where
  sup1 := .ok 7
  sup2 := .eof
  rpcResp := none
  rpcErr := some (.statusErr 5 (bytes "not found"))
  respHeaders := []
  respTrailers := []
  fq := bytes "pkg.Svc.Echo"

/-- A server-stream environment whose stream creation fails with a non-status
error while the stub still hands back a usable stream handle. -/
def serverEnvA : ServerStreamEnv where
  sup1 := .eof
  sup2 := .eof
  streamErr := some (.plain (bytes "conn reset"))
  streamNil := false
  header := .error .eofe
  msgs := []
  recvFinal := .eofe
  trailer := []
  fq := bytes "pkg.Svc.Watch"

/-- The same server-stream environment with a nil stream handle. -/
def serverEnvNil : ServerStreamEnv := { serverEnvA with streamNil := true }

/-- A client-stream environment that ends by `CloseAndReceive` with status OK. -/
def clientEnvA : ClientStreamEnv where
  streamErr := none
  streamNil := false
  sup := [.ok 3, .eof]
  sendRes := fun _ => none
  carResp := some 9
  carErr := none
  header := .ok []
  trailer := []
  fq := bytes "pkg.Svc.Upload"

/-- A bidi environment with a nil stream handle and a creation error. -/
def bidiEnvNil : BidiEnv := { bidiRaceEnv with streamNil := true, streamErr := some (.plain (bytes "bad")) }

/-- A reflection client whose every call fails with status Unimplemented. -/
def unimplClient : ReflClient where
  listServices := .error (.statusErr 12 (bytes "unimplemented"))
  fileContainingSymbol := fun _ => .error (.statusErr 12 (bytes "unimplemented"))
  allExtensionNumbersForType := fun _ => .error (.statusErr 12 (bytes "unimplemented"))
  resolveExtension := fun _ _ => .error (.statusErr 12 (bytes "unimplemented"))

/-- A reflection client whose every call fails with a non-status error. -/
def brokenClient : ReflClient where
  listServices := .error (.plain (bytes "conn refused"))
  fileContainingSymbol := fun _ => .error (.plain (bytes "conn refused"))
  allExtensionNumbersForType := fun _ => .ok [5]
  resolveExtension := fun _ _ => .error (.plain (bytes "conn refused"))

/-- A descriptor source exposing one service with unsorted method names. -/
def svcSource : DescSource where
  listServices := .ok [bytes "pkg.Svc"]
  findSymbol := fun n =>
    if n = bytes "pkg.Svc" then .ok (.service (bytes "pkg.Svc") [bytes "B", bytes "A"])
    else if n = bytes "pkg.Msg" then .ok (.message (bytes "pkg.Msg"))
    else .error (.notFound (bytes "Symbol") n)
  allExtensionsForType := fun _ => .ok []

/- ## Shared lemmas -/

/-- Decoding inverts encoding character-wise on the standard alphabet. -/
theorem b64index_b64char_std : ∀ i, i < 64 → b64index stdAlpha (b64char stdAlpha i) = some i := by
  decide

/-- Every byte the standard-alphabet encoder can emit lies in the printable
band, and is neither a colon nor a pad byte. -/
theorem b64char_std_bounds (i : Nat) :
    43 ≤ b64char stdAlpha i ∧ b64char stdAlpha i ≤ 122 ∧
      b64char stdAlpha i ≠ 58 ∧ b64char stdAlpha i ≠ 61 := by
  simp only [b64char, stdAlpha]
  split_ifs <;> omega

/-- Every byte of a padded standard-alphabet encoding (pad byte included) is
printable and is not a colon. -/
theorem b64encode_std_mem :
    ∀ (b : List Nat), ∀ c ∈ b64encode stdAlpha true b, 43 ≤ c ∧ c ≤ 122 ∧ c ≠ 58
  | [], c, hc => by simp [b64encode] at hc
  | [x], c, hc => by
    simp [b64encode] at hc
    rcases hc with hc | hc | hc
    · have := b64char_std_bounds (x / 4); subst hc; exact ⟨this.1, this.2.1, this.2.2.1⟩
    · have := b64char_std_bounds (x % 4 * 16); subst hc; exact ⟨this.1, this.2.1, this.2.2.1⟩
    · omega
  | [x, y], c, hc => by
    simp [b64encode] at hc
    rcases hc with hc | hc | hc | hc
    · have := b64char_std_bounds (x / 4); subst hc; exact ⟨this.1, this.2.1, this.2.2.1⟩
    · have := b64char_std_bounds (x % 4 * 16 + y / 16); subst hc
      exact ⟨this.1, this.2.1, this.2.2.1⟩
    · have := b64char_std_bounds (y % 16 * 4); subst hc; exact ⟨this.1, this.2.1, this.2.2.1⟩
    · omega
  | x :: y :: z :: rest, c, hc => by
    simp only [b64encode, List.mem_cons] at hc
    rcases hc with hc | hc | hc | hc | hc
    · have := b64char_std_bounds (x / 4); subst hc; exact ⟨this.1, this.2.1, this.2.2.1⟩
    · have := b64char_std_bounds (x % 4 * 16 + y / 16); subst hc
      exact ⟨this.1, this.2.1, this.2.2.1⟩
    · have := b64char_std_bounds (y % 16 * 4 + z / 64); subst hc
      exact ⟨this.1, this.2.1, this.2.2.1⟩
    · have := b64char_std_bounds (z % 64); subst hc; exact ⟨this.1, this.2.1, this.2.2.1⟩
    · exact b64encode_std_mem rest c hc

/-- The encoder never emits the bytes Go's decoder skips. -/
theorem stripNewlines_b64encode_std (b : List Nat) :
    stripNewlines (b64encode stdAlpha true b) = b64encode stdAlpha true b := by
  unfold stripNewlines
  rw [List.filter_eq_self]
  intro c hc
  have h := b64encode_std_mem b c hc
  simp only [Bool.and_eq_true, bne_iff_ne, ne_eq]
  omega

/-- Standard padded base64 round-trip on byte lists. -/
theorem b64_roundtrip_std :
    ∀ (b : List Nat), (∀ x ∈ b, x < 256) →
      b64decodePadQ stdAlpha (b64encode stdAlpha true b) = some b
  | [], _ => by simp [b64encode, b64decodePadQ]
  | [x], h => by
    have hx : x < 256 := h x (by simp)
    have h1 := b64index_b64char_std (x / 4) (by omega)
    have h2 := b64index_b64char_std (x % 4 * 16) (by omega)
    simp [b64encode, b64decodePadQ, h1, h2]
    omega
  | [x, y], h => by
    have hx : x < 256 := h x (by simp)
    have hy : y < 256 := h y (by simp)
    have h1 := b64index_b64char_std (x / 4) (by omega)
    have h2 := b64index_b64char_std (x % 4 * 16 + y / 16) (by omega)
    have h3 := b64index_b64char_std (y % 16 * 4) (by omega)
    have hne3 := (b64char_std_bounds (y % 16 * 4)).2.2.2
    simp [b64encode, b64decodePadQ, h1, h2, h3, hne3]
    constructor <;> omega
  | x :: y :: z :: rest, h => by
    have hx : x < 256 := h x (by simp)
    have hy : y < 256 := h y (by simp)
    have hz : z < 256 := h z (by simp)
    have h1 := b64index_b64char_std (x / 4) (by omega)
    have h2 := b64index_b64char_std (x % 4 * 16 + y / 16) (by omega)
    have h3 := b64index_b64char_std (y % 16 * 4 + z / 64) (by omega)
    have h4 := b64index_b64char_std (z % 64) (by omega)
    have hne3 := (b64char_std_bounds (y % 16 * 4 + z / 64)).2.2.2
    have hne4 := (b64char_std_bounds (z % 64)).2.2.2
    have ih := b64_roundtrip_std rest (fun c hc => h c (by simp [hc]))
    simp [b64encode, b64decodePadQ, h1, h2, h3, h4, hne3, hne4, ih]
    refine ⟨by omega, by omega, by omega⟩

/-- The lenient decoder inverts a standard padded encoding (the first codec
in the cascade already succeeds). -/
theorem decodeLenient_b64encode_std (b : List Nat) (h : ∀ x ∈ b, x < 256) :
    decodeLenient (b64encode stdAlpha true b) = some b := by
  unfold decodeLenient
  rw [show b64decode stdAlpha true (b64encode stdAlpha true b) = some b by
    simp [b64decode, stripNewlines_b64encode_std, b64_roundtrip_std b h]]

/-- Whitespace bytes all precede the printable band of base64 text. -/
theorem isWs_false_of_ge (c : Nat) (h : 43 ≤ c) : isWs c = false := by
  simp only [isWs, decide_eq_false_iff_not]
  omega

/-- Trimming does not touch a string without leading whitespace. -/
theorem trimLeft_no_ws (s : GoStr) (h : ∀ c ∈ s, isWs c = false) : trimLeft s = s := by
  cases s with
  | nil => rfl
  | cons c rest => simp [trimLeft, h c (by simp)]

/-- Trimming does not touch a string free of whitespace. -/
theorem trimSpace_no_ws (s : GoStr) (h : ∀ c ∈ s, isWs c = false) : trimSpace s = s := by
  unfold trimSpace
  rw [trimLeft_no_ws s h,
    trimLeft_no_ws s.reverse (fun c hc => h c (List.mem_reverse.mp hc)),
    List.reverse_reverse]

/-- Trimming a single leading space off a whitespace-free string. -/
theorem trimSpace_space_cons (s : GoStr) (h : ∀ c ∈ s, isWs c = false) :
    trimSpace (32 :: s) = s := by
  unfold trimSpace
  rw [show trimLeft (32 :: s) = trimLeft s by simp [trimLeft, isWs],
    trimLeft_no_ws s h,
    trimLeft_no_ws s.reverse (fun c hc => h c (List.mem_reverse.mp hc)),
    List.reverse_reverse]

/-- Splitting at the first delimiter occurrence, when the prefix is clean. -/
theorem splitAtFirst_append (d : Nat) (pre post : GoStr) (h : d ∉ pre) :
    splitAtFirst d (pre ++ d :: post) = some (pre, post) := by
  induction pre with
  | nil => simp [splitAtFirst]
  | cons c rest ih =>
    have hc : ¬(c = d) := fun e => h (by simp [e])
    simp [splitAtFirst, hc, ih (fun hm => h (List.mem_cons_of_mem _ hm))]

/- ## Claim theorems -/

/-- C5: for every byte string `b`, parsing the single header
`"x-bin: " ++ base64std(b)` with `MetadataFromHeaders` yields metadata whose
sole entry under key `x-bin` holds exactly `b`, and `MetadataToString` on that
metadata reproduces the line `"x-bin: " ++ base64std(b)`. -/
theorem c5_binary_metadata_roundtrip (b : List Nat) (h : ∀ x ∈ b, x < 256) :
    metadataFromHeaders [bytes "x-bin: " ++ b64encode stdAlpha true b]
        = [(bytes "x-bin", [b])]
      ∧ metadataToString [(bytes "x-bin", [b])]
        = bytes "x-bin: " ++ b64encode stdAlpha true b := by
  have hmem := b64encode_std_mem b
  have hnows : ∀ c ∈ b64encode stdAlpha true b, isWs c = false :=
    fun c hc => isWs_false_of_ge c (hmem c hc).1
  have hsplit : splitAtFirst 58 (bytes "x-bin: " ++ b64encode stdAlpha true b)
      = some (bytes "x-bin", 32 :: b64encode stdAlpha true b) := by
    rw [show (bytes "x-bin: " : GoStr) = bytes "x-bin" ++ [58, 32] by decide,
      List.append_assoc]
    exact splitAtFirst_append 58 _ _ (by decide)
  have hne : ¬(bytes "x-bin: " ++ b64encode stdAlpha true b = []) := by
    simp [bytes]
  have hlower : goToLower (trimSpace (bytes "x-bin")) = bytes "x-bin" := by decide
  have hval : trimSpace (32 :: b64encode stdAlpha true b) = b64encode stdAlpha true b :=
    trimSpace_space_cons _ hnows
  have hsuf : hasSuffixB (bytes "-bin") (bytes "x-bin") = true := by decide
  have hdec := decodeLenient_b64encode_std b h
  constructor
  · simp only [metadataFromHeaders, List.foldl_cons, List.foldl_nil, if_neg hne,
      hsplit, hlower, hval, hsuf, hdec, if_pos, mdAppend]
  · simp only [metadataToString]
    rw [if_neg (by simp)]
    simp only [List.map_cons, List.map_nil, sortStrings, List.mergeSort_singleton]
    simp only [List.flatMap_cons, List.flatMap_nil, List.append_nil, mdLookup,
      if_pos rfl, List.map_cons, List.map_nil, joinLines]
    rw [show hasSuffixB (bytes "-bin") (bytes "x-bin") = true from hsuf]
    rw [show (bytes "x-bin" : GoStr) ++ bytes ": " = bytes "x-bin: " by decide]
    simp

/-- Witness for C5 at the byte string `hi`. -/
theorem c5_binary_metadata_roundtrip_witness :
    metadataFromHeaders [bytes "x-bin: " ++ b64encode stdAlpha true (bytes "hi")]
        = [(bytes "x-bin", [bytes "hi"])]
      ∧ metadataToString [(bytes "x-bin", [bytes "hi"])]
        = bytes "x-bin: " ++ b64encode stdAlpha true (bytes "hi") :=
  c5_binary_metadata_roundtrip (bytes "hi") (by decide)

/-- Lower-casing a byte does not change whether it is whitespace. -/
theorem isWs_lowerByte (c : Nat) :
    isWs (if 65 ≤ c ∧ c ≤ 90 then c + 32 else c) = isWs c := by
  by_cases h : 65 ≤ c ∧ c ≤ 90
  · rw [if_pos h]
    simp only [isWs, decide_eq_decide]
    omega
  · rw [if_neg h]

/-- Left-trimming commutes with byte-wise lower-casing. -/
theorem trimLeft_lower (s : GoStr) :
    trimLeft (goToLower s) = goToLower (trimLeft s) := by
  induction s with
  | nil => rfl
  | cons c rest ih =>
    simp only [goToLower, List.map_cons, trimLeft, isWs_lowerByte]
    by_cases h : isWs c
    · rw [if_pos h, if_pos h]
      exact ih
    · rw [if_neg h, if_neg h]
      rfl

/-- Lower-casing maps over a reversal. -/
theorem goToLower_reverse (l : GoStr) : goToLower l.reverse = (goToLower l).reverse :=
  List.map_reverse _ _

/-- Trimming commutes with lower-casing: the source lowers after trimming,
the specification words it the other way round; both agree. -/
theorem goToLower_trimSpace (s : GoStr) :
    goToLower (trimSpace s) = trimSpace (goToLower s) := by
  unfold trimSpace
  rw [goToLower_reverse, ← trimLeft_lower, goToLower_reverse, ← trimLeft_lower]

/-- The source's lenient decode cascade equals the first-success cascade as
the specification words it. -/
theorem decodeLenient_eq_firstSome (v : GoStr) :
    decodeLenient v
      = firstSome
          [b64decode stdAlpha true, b64decode urlAlpha true,
           b64decode stdAlpha false, b64decode urlAlpha false] v := by
  unfold decodeLenient
  simp only [firstSome]
  cases b64decode stdAlpha true v with
  | some r => rfl
  | none =>
    cases b64decode urlAlpha true v with
    | some r => rfl
    | none =>
      cases b64decode stdAlpha false v with
      | some r => rfl
      | none =>
        cases b64decode urlAlpha false v <;> rfl

/-- C6: `MetadataFromHeaders` behaves exactly as the specification describes
it: empty strings are skipped; each remaining string is split at the first
colon (missing colon gives an empty value); the name is lowercased and
trimmed, the value trimmed; `-bin` values are replaced by the first successful
base64 decode among the standard, URL-safe, raw-standard and raw-URL
alphabets, kept verbatim when all four fail; the pair is appended under the
canonical lowercased name. -/
theorem c6_metadata_from_headers_spec (headers : List GoStr) :
    metadataFromHeaders headers = metadataFromHeadersSpec headers := by
  unfold metadataFromHeaders metadataFromHeadersSpec
  apply List.foldl_ext
  intro md part _
  by_cases hp : part = []
  · rw [if_pos hp, if_pos hp]
  · rw [if_neg hp, if_neg hp]
    cases hsp : splitAtFirst 58 part with
    | none =>
      simp only [goToLower_trimSpace, decodeLenient_eq_firstSome]
    | some p =>
      simp only [goToLower_trimSpace, decodeLenient_eq_firstSome]

/-- Splitting at the last delimiter equals splitting at the last-index position. -/
theorem splitAtLast_eq (d : Nat) :
    ∀ s : GoStr,
      splitAtLast d s = (lastIndexByte d s).map (fun pos => (s.take pos, s.drop (pos + 1)))
  | [] => rfl
  | c :: rest => by
    have ih := splitAtLast_eq d rest
    simp only [splitAtLast, lastIndexByte, ih]
    cases lastIndexByte d rest with
    | some i => simp
    | none =>
      by_cases hc : c = d
      · simp [hc]
      · simp [hc]

/-- C4: the engine splits every method name at the last slash when one is
present, otherwise at the last dot (exactly the specification's rule); a name
with neither delimiter or with an empty half makes the invocation fail with
the malformed-method-name error before any handler event fires; and the three
concrete names of the specification behave as stated. -/
theorem c4_method_name_parsing :
    (∀ s : GoStr, parseSymbol s = parseSymbolSpec s)
      ∧ (∀ (env : ResolveEnv) (svc mth : GoStr),
          parseSymbol env.methodName = (svc, mth) → svc = [] ∨ mth = [] →
            invokeRPCResolve env = ([], some (.errMalformedMethod env.methodName)))
      ∧ parseSymbol (bytes "a.b.C/D") = (bytes "a.b.C", bytes "D")
      ∧ parseSymbol (bytes "a.b.C.D") = (bytes "a.b.C", bytes "D")
      ∧ parseSymbol (bytes "D") = ([], []) := by
  refine ⟨?_, ?_, by decide, by decide, by decide⟩
  · intro s
    unfold parseSymbol parseSymbolSpec
    rw [splitAtLast_eq 47 s, splitAtLast_eq 46 s]
    cases lastIndexByte 47 s with
    | some p => simp
    | none => cases lastIndexByte 46 s <;> simp
  · intro env svc mth hp hm
    unfold invokeRPCResolve
    rw [hp]
    rcases hm with hm | hm <;> simp [hm]

/-- Witness for C4: the bare name `D` is rejected as malformed with no events. -/
theorem c4_method_name_parsing_witness :
    invokeRPCResolve ⟨emptySource, bytes "D"⟩ = ([], some (.errMalformedMethod (bytes "D"))) :=
  c4_method_name_parsing.2.1 ⟨emptySource, bytes "D"⟩ [] [] (by decide) (Or.inl rfl)

/-- C10: `GetDescriptorText` strips at most one trailing newline and returns
the rest of the printed text unchanged; it indexes the final character
unconditionally, so the empty printed string is a panic (`none`), and only a
non-empty printed string is safe; a printer error is passed through without
touching the text. -/
theorem c10_get_descriptor_text :
    getDescriptorText (.ok []) = none
      ∧ (∀ (txt : GoStr) (c : Nat), txt.getLast? = some c →
          getDescriptorText (.ok txt) = some (.ok (if c = 10 then txt.dropLast else txt))
            ∧ (if c = 10 then txt.dropLast ++ [10] else txt) = txt)
      ∧ (∀ e : GoError, getDescriptorText (.error e) = some (.error e)) := by
  refine ⟨rfl, ?_, fun e => rfl⟩
  intro txt c hc
  refine ⟨by simp [getDescriptorText, hc], ?_⟩
  by_cases h10 : c = 10
  · subst h10
    rw [if_pos rfl]
    have hne : txt ≠ [] := by
      intro h
      rw [h] at hc
      exact Option.noConfusion hc
    have hl : txt.getLast hne = 10 := by
      have := List.getLast?_eq_getLast txt hne
      rw [hc] at this
      exact (Option.some_injective _ this.symm)
    rw [← hl]
    exact List.dropLast_append_getLast hne
  · rw [if_neg h10]

/-- Witness for C10 at the printed text `m` followed by a newline. -/
theorem c10_get_descriptor_text_witness :
    getDescriptorText (.ok [109, 10])
        = some (.ok (if (10 : Nat) = 10 then ([109, 10] : GoStr).dropLast else [109, 10]))
      ∧ (if (10 : Nat) = 10 then ([109, 10] : GoStr).dropLast ++ [10] else [109, 10]) = [109, 10] :=
  c10_get_descriptor_text.2.1 [109, 10] 10 (by decide)

/-- Error propagation through the one-by-one extension resolution loop. -/
theorem resolveAllExts_error (c : ReflClient) (t : GoStr) (e : GoError) :
    ∀ (pre : List Nat) (n : Nat) (rest : List Nat),
      (∀ m ∈ pre, ∃ x, c.resolveExtension t m = .ok x) →
      c.resolveExtension t n = .error e →
      resolveAllExts c t (pre ++ n :: rest) = .error (reflectionSupport e)
  | [], n, rest, _, he => by simp [resolveAllExts, he]
  | m :: pre, n, rest, hok, he => by
    obtain ⟨x, hx⟩ := hok m (by simp)
    have ih := resolveAllExts_error c t e pre n rest
      (fun m hm => hok m (List.mem_cons_of_mem _ hm)) he
    simp [resolveAllExts, hx, ih]

/-- C7: on every operation of the reflection-backed source, an underlying
error whose status code is Unimplemented becomes the sentinel
`ErrReflectionNotSupported`, and every other non-nil error passes through
unchanged; the three operations route every underlying client error through
this translation, the extension listing on both of its remote calls. -/
theorem c7_reflection_unimplemented :
    (∀ e : GoError, statusCodeOfErr e = some codeUnimplemented →
        reflectionSupport e = .reflectionNotSupported)
      ∧ (∀ e : GoError, statusCodeOfErr e ≠ some codeUnimplemented → reflectionSupport e = e)
      ∧ (∀ (c : ReflClient) (e : GoError), c.listServices = .error e →
          (serverSource c).listServices = .error (reflectionSupport e))
      ∧ (∀ (c : ReflClient) (n : GoStr) (e : GoError), c.fileContainingSymbol n = .error e →
          (serverSource c).findSymbol n = .error (reflectionSupport e))
      ∧ (∀ (c : ReflClient) (t : GoStr) (e : GoError),
          c.allExtensionNumbersForType t = .error e →
          (serverSource c).allExtensionsForType t = .error (reflectionSupport e))
      ∧ (∀ (c : ReflClient) (t : GoStr) (e : GoError) (pre : List Nat) (n : Nat)
            (rest : List Nat),
          c.allExtensionNumbersForType t = .ok (pre ++ n :: rest) →
          (∀ m ∈ pre, ∃ x, c.resolveExtension t m = .ok x) →
          c.resolveExtension t n = .error e →
          (serverSource c).allExtensionsForType t = .error (reflectionSupport e)) := by
  refine ⟨?_, ?_, ?_, ?_, ?_, ?_⟩
  · intro e he
    unfold reflectionSupport
    rw [he]
    simp
  · intro e he
    unfold reflectionSupport
    cases h : statusCodeOfErr e with
    | none => rfl
    | some cd =>
      have hcd : ¬(cd = codeUnimplemented) := fun hcd => he (by rw [h, hcd])
      simp [hcd]
  · intro c e he
    simp [serverSource, he]
  · intro c n e he
    simp [serverSource, he]
  · intro c t e he
    simp [serverSource, he]
  · intro c t e pre n rest hnums hok he
    simp only [serverSource, hnums]
    exact resolveAllExts_error c t e pre n rest hok he

/-- Witness for C7: the Unimplemented client yields the sentinel on all three
operations and the non-status client's error passes through unchanged. -/
theorem c7_reflection_unimplemented_witness :
    (serverSource unimplClient).listServices = .error (reflectionSupport (.statusErr 12 (bytes "unimplemented")))
      ∧ (serverSource unimplClient).findSymbol (bytes "a.B") = .error (reflectionSupport (.statusErr 12 (bytes "unimplemented")))
      ∧ (serverSource brokenClient).listServices = .error (reflectionSupport (.plain (bytes "conn refused")))
      ∧ (serverSource brokenClient).allExtensionsForType (bytes "a.M") = .error (reflectionSupport (.plain (bytes "conn refused")))
      ∧ reflectionSupport (.statusErr 12 (bytes "unimplemented")) = .reflectionNotSupported
      ∧ reflectionSupport (.plain (bytes "conn refused")) = .plain (bytes "conn refused") :=
  ⟨c7_reflection_unimplemented.2.2.1 unimplClient _ rfl,
   c7_reflection_unimplemented.2.2.2.1 unimplClient (bytes "a.B") _ rfl,
   c7_reflection_unimplemented.2.2.1 brokenClient _ rfl,
   c7_reflection_unimplemented.2.2.2.2.2 brokenClient (bytes "a.M") _ [] 5 [] rfl
     (by intro m hm; cases hm) rfl,
   c7_reflection_unimplemented.1 _ (by decide),
   c7_reflection_unimplemented.2.1 _ (by decide)⟩

/-- Byte-wise string order is total. -/
theorem goStrLe_total : ∀ a b : GoStr, (goStrLe a b || goStrLe b a) = true
  | [], b => by simp [goStrLe]
  | _ :: _, [] => by simp [goStrLe]
  | a :: as, b :: bs => by
    simp only [goStrLe]
    by_cases h1 : a < b
    · simp [h1]
    · by_cases h2 : b < a
      · simp [h1, h2]
      · simp only [if_neg h1, if_neg h2]
        exact goStrLe_total as bs

/-- Byte-wise string order is transitive. -/
theorem goStrLe_trans :
    ∀ a b c : GoStr, goStrLe a b = true → goStrLe b c = true → goStrLe a c = true
  | [], _, _, _, _ => by simp [goStrLe]
  | _ :: _, [], _, h1, _ => by simp [goStrLe] at h1
  | _ :: _, _ :: _, [], _, h2 => by simp [goStrLe] at h2
  | a :: as, b :: bs, c :: cs, h1, h2 => by
    simp only [goStrLe] at h1 h2 ⊢
    rcases Nat.lt_trichotomy a b with hab | hab | hab
    · rcases Nat.lt_trichotomy b c with hbc | hbc | hbc
      · rw [if_pos (by omega)]
      · subst hbc
        rw [if_pos (by omega)]
      · rw [if_neg (by omega), if_pos hbc] at h2
        exact absurd h2 (by simp)
    · subst hab
      rw [if_neg (by omega), if_neg (by omega)] at h1
      rcases Nat.lt_trichotomy a c with hac | hac | hac
      · rw [if_pos hac]
      · subst hac
        rw [if_neg (by omega), if_neg (by omega)] at h2 ⊢
        exact goStrLe_trans as bs cs h1 h2
      · rw [if_neg (by omega), if_pos hac] at h2
        exact absurd h2 (by simp)
    · rw [if_neg (by omega), if_pos hab] at h1
      exact absurd h1 (by simp)

/-- C8: `ListMethods` propagates the source's error when the symbol is absent
(`NotFound` under the source contract), fails with `NotFound` when the symbol
is not a service descriptor, and otherwise returns the service's method names
sorted in ascending byte-wise order. -/
theorem c8_list_methods :
    (∀ (src : DescSource) (name : GoStr) (e : GoError),
        src.findSymbol name = .error e → listMethods src name = .error e)
      ∧ (∀ (src : DescSource) (name : GoStr) (d : Descriptor),
          src.findSymbol name = .ok d → (∀ sn ms, d ≠ .service sn ms) →
          listMethods src name = .error (.notFound (bytes "Service") name))
      ∧ (∀ (src : DescSource) (name sn : GoStr) (ms : List GoStr),
          src.findSymbol name = .ok (.service sn ms) →
          listMethods src name = .ok (sortStrings ms)
            ∧ List.Sorted (fun a b => goStrLe a b = true) (sortStrings ms)
            ∧ (sortStrings ms).Perm ms) := by
  refine ⟨?_, ?_, ?_⟩
  · intro src name e he
    simp [listMethods, he]
  · intro src name d hd hns
    cases d with
    | service sn ms => exact absurd rfl (hns sn ms)
    | message n => simp [listMethods, hd]
    | other n => simp [listMethods, hd]
  · intro src name sn ms hd
    refine ⟨by simp [listMethods, hd], ?_, List.mergeSort_perm ms goStrLe⟩
    exact List.sorted_mergeSort goStrLe_trans goStrLe_total ms

/-- Witness for C8 on a service with methods listed out of order. -/
theorem c8_list_methods_witness :
    listMethods svcSource (bytes "pkg.Svc") = .ok (sortStrings [bytes "B", bytes "A"])
      ∧ List.Sorted (fun a b => goStrLe a b = true) (sortStrings [bytes "B", bytes "A"])
      ∧ (sortStrings [bytes "B", bytes "A"]).Perm [bytes "B", bytes "A"] :=
  c8_list_methods.2.2 svcSource (bytes "pkg.Svc") (bytes "pkg.Svc")
    [bytes "B", bytes "A"] rfl

/-- C1: in all four cardinalities, once the RPC has been dispatched, an error
(nil included) that converts to a gRPC status flows to `OnReceiveTrailers`
with that status and the invocation returns nil, while an error that does not
convert makes the invocation return the wrapped failure naming the
fully-qualified method, with no trailers event fired. -/
theorem c1_post_dispatch_classification :
    (∀ env : UnaryEnv,
        (env.sup1 = .eof ∨ (∃ m, env.sup1 = .ok m) ∧ env.sup2 = .eof) →
        (∀ code, classifyErr env.rpcErr = .status code →
            (invokeUnary env).outcome = .ret none
              ∧ Event.receiveTrailers code env.respTrailers ∈ (invokeUnary env).events)
          ∧ (∀ e, classifyErr env.rpcErr = .failure e →
              (invokeUnary env).outcome = .ret (some (.errGrpcCallFailed env.fq e))
                ∧ ∀ cd md, Event.receiveTrailers cd md ∉ (invokeUnary env).events))
      ∧ (∀ env : ServerStreamEnv,
          (env.sup1 = .eof ∨ (∃ m, env.sup1 = .ok m) ∧ env.sup2 = .eof) →
          env.streamNil = false →
          (∀ code, classifyErr (serverClassifiedErr env) = .status code →
              (invokeServerStream env).outcome = .ret none
                ∧ Event.receiveTrailers code env.trailer ∈ (invokeServerStream env).events)
            ∧ (∀ e, classifyErr (serverClassifiedErr env) = .failure e →
                (invokeServerStream env).outcome = .ret (some (.errGrpcCallFailed env.fq e))
                  ∧ ∀ cd md, Event.receiveTrailers cd md ∉ (invokeServerStream env).events))
      ∧ (∀ (env : ClientStreamEnv) (resp : Option Msg) (cerr : Option GoError),
          clientPhase1 env = .ok (resp, cerr) →
          env.streamNil = false →
          (∀ code, classifyErr cerr = .status code →
              (invokeClientStream env).outcome = .ret none
                ∧ Event.receiveTrailers code env.trailer ∈ (invokeClientStream env).events)
            ∧ (∀ e, classifyErr cerr = .failure e →
                (invokeClientStream env).outcome = .ret (some (.errGrpcCallFailed env.fq e))
                  ∧ ∀ cd md, Event.receiveTrailers cd md ∉ (invokeClientStream env).events))
      ∧ (∀ env : BidiEnv,
          env.streamNil = false →
          (∀ code, classifyErr (bidiClassifiedErr env) = .status code →
              (invokeBidi env).outcome = .ret none
                ∧ Event.receiveTrailers code env.trailer ∈ (invokeBidi env).events)
            ∧ (∀ e, classifyErr (bidiClassifiedErr env) = .failure e →
                (invokeBidi env).outcome = .ret (some (.errGrpcCallFailed env.fq e))
                  ∧ ∀ cd md, Event.receiveTrailers cd md ∉ (invokeBidi env).events)) := by
  refine ⟨?_, ?_, ?_, ?_⟩
  · intro env hd
    have hinv : ∃ m, invokeUnary env = unaryCall env m := by
      rcases hd with h1 | ⟨⟨m, h1⟩, h2⟩
      · exact ⟨emptyMsg, by simp [invokeUnary, h1]⟩
      · exact ⟨m, by simp [invokeUnary, h1, h2]⟩
    obtain ⟨m, hm⟩ := hinv
    rw [hm]
    constructor
    · intro code hcode
      simp [unaryCall, hcode]
    · intro e he
      simp [unaryCall, he]
  · intro env hd hnil
    have hinv : ∃ m, invokeServerStream env = serverStreamCall env m := by
      rcases hd with h1 | ⟨⟨m, h1⟩, h2⟩
      · exact ⟨emptyMsg, by simp [invokeServerStream, h1]⟩
      · exact ⟨m, by simp [invokeServerStream, h1, h2]⟩
    obtain ⟨m, hm⟩ := hinv
    rw [hm]
    constructor
    · intro code hcode
      simp [serverStreamCall, hnil, hcode]
    · intro e he
      simp only [serverStreamCall, hnil, he, Bool.false_eq_true, if_false]
      refine ⟨by trivial, ?_⟩
      intro cd md
      cases hh : env.header <;> cases hs : env.streamErr <;>
        simp [hh, hs, List.mem_map]
  · intro env resp cerr hp hnil
    have hm : invokeClientStream env = clientFinish env resp cerr := by
      simp [invokeClientStream, hp]
    rw [hm]
    constructor
    · intro code hcode
      simp [clientFinish, hcode, hnil]
    · intro e he
      simp [clientFinish, he]
  · intro env hnil
    constructor
    · intro code hcode
      simp [invokeBidi, hnil, hcode]
    · intro e he
      simp only [invokeBidi, hnil, he, Bool.false_eq_true, if_false]
      refine ⟨by trivial, ?_⟩
      intro cd md
      cases hh : env.header <;> cases hs : env.streamErr <;>
        simp [hh, hs, List.mem_map]

/-- Witness for C1 across the four cardinalities at concrete environments. -/
theorem c1_post_dispatch_classification_witness :
    ((invokeUnary unaryEnvA).outcome = .ret none
        ∧ Event.receiveTrailers 5 unaryEnvA.respTrailers ∈ (invokeUnary unaryEnvA).events)
      ∧ (invokeServerStream serverEnvA).outcome
          = .ret (some (.errGrpcCallFailed serverEnvA.fq (.plain (bytes "conn reset"))))
      ∧ (invokeClientStream clientEnvA).outcome = .ret none
      ∧ (invokeBidi bidiRaceEnv).outcome = .ret none :=
  ⟨(c1_post_dispatch_classification.1 unaryEnvA (Or.inr ⟨⟨7, rfl⟩, rfl⟩)).1 5 rfl,
   ((c1_post_dispatch_classification.2.1 serverEnvA (Or.inl rfl) rfl).2
      (.plain (bytes "conn reset")) rfl).1,
   ((c1_post_dispatch_classification.2.2.1 clientEnvA (some 9) none rfl rfl).1 0 rfl).1,
   ((c1_post_dispatch_classification.2.2.2 bidiRaceEnv rfl).1 0 rfl).1⟩

/-- C3: for unary and server-streaming invocations, a supplier that produces a
first message and then returns nil on the second call makes the engine return
the wrapped too-many-request-messages error naming the fully-qualified method,
with no events fired and nothing sent; a first call returning EOF makes the
engine send the empty request message. -/
theorem c3_too_many_request_messages :
    (∀ (env : UnaryEnv) (m m2 : Msg), env.sup1 = .ok m → env.sup2 = .ok m2 →
        invokeUnary env
          = { events := [], sent := none,
              outcome := .ret (some (.errTooManyRequests env.fq .unaryKind)) })
      ∧ (∀ env : UnaryEnv, env.sup1 = .eof → (invokeUnary env).sent = some emptyMsg)
      ∧ (∀ (env : ServerStreamEnv) (m m2 : Msg), env.sup1 = .ok m → env.sup2 = .ok m2 →
          invokeServerStream env
            = { events := [], sent := none,
                outcome := .ret (some (.errTooManyRequests env.fq .serverStreamKind)) })
      ∧ (∀ env : ServerStreamEnv, env.sup1 = .eof →
          (invokeServerStream env).sent = some emptyMsg) := by
  refine ⟨?_, ?_, ?_, ?_⟩
  · intro env m m2 h1 h2
    simp [invokeUnary, h1, h2]
  · intro env h1
    simp only [invokeUnary, h1]
    unfold unaryCall
    cases classifyErr env.rpcErr <;> rfl
  · intro env m m2 h1 h2
    simp [invokeServerStream, h1, h2]
  · intro env h1
    simp only [invokeServerStream, h1]
    unfold serverStreamCall
    by_cases hn : env.streamNil
    · simp [hn]
    · simp only [hn, Bool.false_eq_true, if_false]
      cases classifyErr (serverClassifiedErr env) <;> rfl

/-- Witness for C3: a two-message supplier on unary and server-streaming, and
an immediately-EOF supplier on both. -/
theorem c3_too_many_request_messages_witness :
    invokeUnary { unaryEnvA with sup2 := SupplierStep.ok 8 }
        = { events := [], sent := none,
            outcome := .ret (some (.errTooManyRequests unaryEnvA.fq .unaryKind)) }
      ∧ (invokeUnary { unaryEnvA with sup1 := SupplierStep.eof }).sent = some emptyMsg
      ∧ invokeServerStream { serverEnvA with sup1 := SupplierStep.ok 1, sup2 := SupplierStep.ok 2 }
          = { events := [], sent := none,
              outcome := .ret (some (.errTooManyRequests serverEnvA.fq .serverStreamKind)) }
      ∧ (invokeServerStream serverEnvA).sent = some emptyMsg :=
  ⟨c3_too_many_request_messages.1 _ 7 8 rfl rfl,
   c3_too_many_request_messages.2.1 _ rfl,
   c3_too_many_request_messages.2.2.1 _ 1 2 rfl rfl,
   c3_too_many_request_messages.2.2.2 serverEnvA rfl⟩

/-- C9: the server-streaming and bidi paths call `Header()` on the stream
handle without checking the stream-creation error: a nil handle panics there
even when creation reported an error, and a usable (non-nil) handle never
panics, whatever the creation error was. -/
theorem c9_nil_stream_handle :
    (∀ (env : ServerStreamEnv) (e : GoError),
        (env.sup1 = .eof ∨ (∃ m, env.sup1 = .ok m) ∧ env.sup2 = .eof) →
        env.streamErr = some e → env.streamNil = true →
        (invokeServerStream env).outcome = .nilPanic)
      ∧ (∀ env : ServerStreamEnv, env.streamNil = false →
          ∃ r, (invokeServerStream env).outcome = .ret r)
      ∧ (∀ (env : BidiEnv) (e : GoError), env.streamErr = some e → env.streamNil = true →
          (invokeBidi env).outcome = .nilPanic)
      ∧ (∀ env : BidiEnv, env.streamNil = false →
          ∃ r, (invokeBidi env).outcome = .ret r) := by
  refine ⟨?_, ?_, ?_, ?_⟩
  · intro env e hd _ hnil
    rcases hd with h1 | ⟨⟨m, h1⟩, h2⟩
    · simp [invokeServerStream, h1, serverStreamCall, hnil]
    · simp [invokeServerStream, h1, h2, serverStreamCall, hnil]
  · intro env hnil
    have hcall : ∀ m : Msg, ∃ r, (serverStreamCall env m).outcome = .ret r := by
      intro m
      unfold serverStreamCall
      simp only [hnil, Bool.false_eq_true, if_false]
      cases classifyErr (serverClassifiedErr env) <;> exact ⟨_, rfl⟩
    cases h1 : env.sup1 with
    | fail e => exact ⟨some (.errRequestData e), by simp [invokeServerStream, h1]⟩
    | eof => simpa [invokeServerStream, h1] using hcall emptyMsg
    | ok m =>
      cases h2 : env.sup2 with
      | ok m2 =>
        exact ⟨some (.errTooManyRequests env.fq .serverStreamKind),
          by simp [invokeServerStream, h1, h2]⟩
      | fail e => exact ⟨some (.errRequestData e), by simp [invokeServerStream, h1, h2]⟩
      | eof => simpa [invokeServerStream, h1, h2] using hcall m
  · intro env e _ hnil
    simp [invokeBidi, hnil]
  · intro env hnil
    simp only [invokeBidi, hnil, Bool.false_eq_true, if_false]
    cases classifyErr (bidiClassifiedErr env) <;> exact ⟨_, rfl⟩

/-- Witness for C9: a nil handle with a creation error panics on both stream
paths, and the non-nil environments finish with a return. -/
theorem c9_nil_stream_handle_witness :
    (invokeServerStream serverEnvNil).outcome = .nilPanic
      ∧ (∃ r, (invokeServerStream serverEnvA).outcome = .ret r)
      ∧ (invokeBidi bidiEnvNil).outcome = .nilPanic
      ∧ (∃ r, (invokeBidi bidiRaceEnv).outcome = .ret r) :=
  ⟨c9_nil_stream_handle.1 serverEnvNil (.plain (bytes "conn reset")) (Or.inl rfl) rfl rfl,
   c9_nil_stream_handle.2.1 serverEnvA rfl,
   c9_nil_stream_handle.2.2.1 bidiEnvNil (.plain (bytes "bad")) rfl rfl,
   c9_nil_stream_handle.2.2.2 bidiRaceEnv rfl⟩

/-- Counterexample to C2 as stated: on `bidiRaceEnv` the send task stores a
non-EOF error and the receive loop ends cleanly (nil error), yet the engine,
which reads the shared cell without waiting for the send task, classifies the
nil receive error: it fires OK trailers and returns nil instead of the wrapped
failure the claim requires. -/
theorem c2_counterexample_send_error_missed :
    sendTaskErr bidiRaceEnv = some (.errRequestData (.plain (bytes "boom")))
      ∧ bidiRecvErr bidiRaceEnv = none
      ∧ invokeBidi bidiRaceEnv
          = { events := [Event.receiveTrailers codeOK []], sent := none,
              outcome := .ret none } :=
  ⟨rfl, rfl, rfl⟩

/-- C2 (amended): the engine joins the send task before returning (and after
classifying), and a non-EOF error stored by the send task supersedes a nil
receive error exactly when the store happens before the engine's read of the
shared cell. -/
theorem c2_amended_join_before_return :
    (∀ env : BidiEnv, env.streamNil = false →
        ∃ mid, bidiTrace env
          = [BidiAction.dispatch, BidiAction.headerCall, BidiAction.loadCell,
             BidiAction.classify] ++ mid ++ [BidiAction.join, BidiAction.ret])
      ∧ (∀ (env : BidiEnv) (e : GoError),
          env.streamErr = none → env.storeBeforeLoad = true →
          sendTaskErr env = some e → e ≠ .eofe → bidiRecvErr env = none →
          bidiClassifiedErr env = some e) := by
  constructor
  · intro env hnil
    unfold bidiTrace
    simp only [hnil, Bool.false_eq_true, if_false]
    exact ⟨_, rfl⟩
  · intro env e hstream hstore hsend hne _
    simp [bidiClassifiedErr, bidiObservedSend, hstream, hstore, hsend, hne]

/-- Witness for the amended C2 on the synchronized race environment. -/
theorem c2_amended_join_before_return_witness :
    (∃ mid, bidiTrace bidiRaceEnvSync
        = [BidiAction.dispatch, BidiAction.headerCall, BidiAction.loadCell,
           BidiAction.classify] ++ mid ++ [BidiAction.join, BidiAction.ret])
      ∧ bidiClassifiedErr bidiRaceEnvSync
          = some (.errRequestData (.plain (bytes "boom"))) :=
  ⟨c2_amended_join_before_return.1 bidiRaceEnvSync rfl,
   c2_amended_join_before_return.2 bidiRaceEnvSync (.errRequestData (.plain (bytes "boom")))
     rfl rfl rfl (by decide) rfl⟩
